import Mathlib

/-!
A verification development for the albion-lens repository: a shallow
embedding in Lean 4 of the Photon packet parser (`pkg/photon/parser.go`),
the Protocol16 typed-value decoder (`pkg/photon/protocol16.go`), the
`BufferReader` byte cursor, the parser `Stats` counters, and the Albion
game-event interpreter (`pkg/handlers/albion.go`), together with theorems
settling the specification claims about them.

Bytes are modelled as `Nat` (values < 256 on real inputs), Go `int`/`int32`/
`int64` values as `Int` with explicit wrap-around where the source converts,
Go byte slices as `List Nat`, Go maps as association lists with
replace-on-insert semantics, and Go panics as an `Option` result (`none` =
panic).  IEEE-754 floats appear in the source only as (a) raw bit patterns
stored in decoded values, modelled as their bit patterns, and (b) the
expression `int64(math.Floor(float64(x) / 10000.0))`, modelled by exact
floored integer division (see `fixPointFloor`).
-/

namespace AlbionLens

/-! ## Byte-level helpers (encoding/binary big-endian) -/

/-- `binary.BigEndian.Uint16` on two bytes. -/
def beU16 (b0 b1 : Nat) : Nat := b0 * 256 + b1

/-- `binary.BigEndian.Uint32` on four bytes. -/
def beU32 (b0 b1 b2 b3 : Nat) : Nat := ((b0 * 256 + b1) * 256 + b2) * 256 + b3

/-- `binary.BigEndian.Uint64` on eight bytes. -/
def beU64 (b0 b1 b2 b3 b4 b5 b6 b7 : Nat) : Nat :=
  beU32 b0 b1 b2 b3 * 2 ^ 32 + beU32 b4 b5 b6 b7

/-- Go `int16(u)` for `u < 2^16`: reinterpret the low 16 bits as signed. -/
def toInt16 (u : Nat) : Int := if u % 2 ^ 16 < 2 ^ 15 then (u % 2 ^ 16 : Nat) else (u % 2 ^ 16 : Int) - 2 ^ 16

/-- Go `int32(u)` for `u < 2^32`: reinterpret the low 32 bits as signed. -/
def toInt32 (u : Nat) : Int := if u % 2 ^ 32 < 2 ^ 31 then (u % 2 ^ 32 : Nat) else (u % 2 ^ 32 : Int) - 2 ^ 32

/-- Go `int64(u)` for `u < 2^64`: reinterpret the low 64 bits as signed. -/
def toInt64n (u : Nat) : Int := if u % 2 ^ 64 < 2 ^ 63 then (u % 2 ^ 64 : Nat) else (u % 2 ^ 64 : Int) - 2 ^ 64

/-- Big-endian `Uint16` read of a byte list at `off` (callers guard bounds,
mirroring the `offset+2 > len(data)` checks that precede every use). -/
def beU16At (data : List Nat) (off : Nat) : Nat :=
  beU16 (data.getD off 0) (data.getD (off + 1) 0)

/-- Big-endian `Uint32` read of a byte list at `off`. -/
def beU32At (data : List Nat) (off : Nat) : Nat :=
  beU32 (data.getD off 0) (data.getD (off + 1) 0) (data.getD (off + 2) 0) (data.getD (off + 3) 0)

/-- Big-endian `Uint64` read of a byte list at `off`. -/
def beU64At (data : List Nat) (off : Nat) : Nat :=
  beU64 (data.getD off 0) (data.getD (off + 1) 0) (data.getD (off + 2) 0) (data.getD (off + 3) 0)
    (data.getD (off + 4) 0) (data.getD (off + 5) 0) (data.getD (off + 6) 0) (data.getD (off + 7) 0)

/-- Go sub-slice `data[a:b]` as a list (callers establish `a ≤ b ≤ len`). -/
def subList (data : List Nat) (a b : Nat) : List Nat := (data.take b).drop a

/-! ## Protocol16 type tags (src/pkg/photon/protocol16.go) -/

def TypeUnknown : Nat := 0
def TypeNull : Nat := 42
def TypeDictionary : Nat := 68
def TypeStringArray : Nat := 97
def TypeByte : Nat := 98
def TypeDouble : Nat := 100
def TypeFloat : Nat := 102
def TypeHashtable : Nat := 104
def TypeInteger : Nat := 105
def TypeShort : Nat := 107
def TypeLong : Nat := 108
def TypeIntegerArray : Nat := 110
def TypeBoolean : Nat := 111
def TypeString : Nat := 115
def TypeByteArray : Nat := 120
def TypeArray : Nat := 121
def TypeObjectArray : Nat := 122

/-- The dynamic value universe of the decoder: Go's `interface{}` restricted
to what `readValue` can produce.  `vnull` is Go `nil`; strings are byte
lists; floats are kept as their big-endian bit patterns (the decoder only
reinterprets bits, `math.Float32frombits` / `math.Float64frombits`). -/
inductive P16Value where
  | vnull : P16Value
  | vbyte (b : Nat) : P16Value
  | vbool (b : Bool) : P16Value
  | vshort (n : Int) : P16Value
  | vint (n : Int) : P16Value
  | vlong (n : Int) : P16Value
  | vfloatBits (bits : Nat) : P16Value
  | vdoubleBits (bits : Nat) : P16Value
  | vstring (s : List Nat) : P16Value
  | vbytes (bs : List Nat) : P16Value
  | varray (xs : List P16Value) : P16Value
  | vintArray (xs : List Int) : P16Value
  | vstringArray (xs : List (List Nat)) : P16Value
  | vdict (m : List (P16Value × P16Value)) : P16Value
  | vobjArray (xs : List P16Value) : P16Value

mutual

/-- Structural equality on decoded values, modelling Go interface equality
as used by map keys (Go would panic on non-comparable keys such as slices;
the claims only exercise scalar keys, where the two notions agree). -/
def pvEq : P16Value → P16Value → Bool
  | .vnull, .vnull => true
  | .vbyte a, .vbyte b => a == b
  | .vbool a, .vbool b => a == b
  | .vshort a, .vshort b => a == b
  | .vint a, .vint b => a == b
  | .vlong a, .vlong b => a == b
  | .vfloatBits a, .vfloatBits b => a == b
  | .vdoubleBits a, .vdoubleBits b => a == b
  | .vstring a, .vstring b => a == b
  | .vbytes a, .vbytes b => a == b
  | .varray a, .varray b => pvListEq a b
  | .vintArray a, .vintArray b => a == b
  | .vstringArray a, .vstringArray b => a == b
  | .vdict a, .vdict b => pvPairListEq a b
  | .vobjArray a, .vobjArray b => pvListEq a b
  | _, _ => false

/-- Elementwise `pvEq` on lists of values. -/
def pvListEq : List P16Value → List P16Value → Bool
  | [], [] => true
  | a :: as, b :: bs => pvEq a b && pvListEq as bs
  | _, _ => false

/-- Elementwise `pvEq` on lists of key/value pairs. -/
def pvPairListEq : List (P16Value × P16Value) → List (P16Value × P16Value) → Bool
  | [], [] => true
  | (ak, av) :: as, (bk, bv) :: bs => pvEq ak bk && pvEq av bv && pvPairListEq as bs
  | _, _ => false

end

/-- Go `map[interface{}]interface{}` insertion `dict[key] = val`: replace the
value when the key is present, append otherwise. -/
def mapInsert (m : List (P16Value × P16Value)) (k v : P16Value) : List (P16Value × P16Value) :=
  if m.any (fun p => pvEq p.1 k) then m.map (fun p => if pvEq p.1 k then (k, v) else p)
  else m ++ [(k, v)]

/-- The `TypeArray` element loop: `for i < length && offset < len(data)`.
`rv` is the value reader for the element type (the enclosing `readValue` at
the enclosing fuel).  Returns the decoded prefix and the final offset (the
Go code pre-allocates `length` slots; slots the loop never reaches stay
`nil`, which the caller restores with `List.replicate`). -/
def arrLoopGo (rv : Nat → Nat → P16Value × Nat) : Nat → List Nat → Nat → Nat → List P16Value × Nat
  | 0, _, offset, _ => ([], offset)
  | count + 1, data, offset, elemType =>
    if data.length ≤ offset then ([], offset)
    else
      let v := rv offset elemType
      let r := arrLoopGo rv count data v.2 elemType
      (v.1 :: r.1, r.2)

/-- The `TypeIntegerArray` element loop: `for i < length && offset+4 <= len(data)`. -/
def intArrLoopGo : Nat → List Nat → Nat → List Int × Nat
  | 0, _, offset => ([], offset)
  | count + 1, data, offset =>
    if offset + 4 ≤ data.length then
      let r := intArrLoopGo count data (offset + 4)
      (toInt32 (beU32At data offset) :: r.1, r.2)
    else ([], offset)

/-- The `TypeStringArray` element loop; a non-string result of the inner
`readValue` (possible only on underflow) leaves the pre-allocated `""`. -/
def strArrLoopGo (rv : Nat → Nat → P16Value × Nat) : Nat → List Nat → Nat → List (List Nat) × Nat
  | 0, _, offset => ([], offset)
  | count + 1, data, offset =>
    if data.length ≤ offset then ([], offset)
    else
      let v := rv offset TypeString
      let s := match v.1 with | .vstring s => s | _ => ([] : List Nat)
      let r := strArrLoopGo rv count data v.2
      (s :: r.1, r.2)

/-- The dictionary entry loop: `for i < length && offset < len(data)`, with
the inline-typed key/value paths when the declared tag is 0, and a `break`
(returning the map built so far) when an inline tag byte is missing. -/
def dictLoopGo (rv : Nat → Nat → P16Value × Nat) : Nat → List Nat → Nat → Nat → Nat →
    List (P16Value × P16Value) → List (P16Value × P16Value) × Nat
  | 0, _, offset, _, _, dict => (dict, offset)
  | count + 1, data, offset, keyType, valueType, dict =>
    if data.length ≤ offset then (dict, offset)
    else
      let kr : Option (P16Value × Nat) :=
        if keyType = 0 ∨ keyType = TypeUnknown then
          if data.length ≤ offset then none
          else some (rv (offset + 1) (data.getD offset 0))
        else some (rv offset keyType)
      match kr with
      | none => (dict, offset)
      | some (key, o1) =>
        let vr : Option (P16Value × Nat) :=
          if valueType = 0 ∨ valueType = TypeUnknown then
            if data.length ≤ o1 then none
            else some (rv (o1 + 1) (data.getD o1 0))
          else some (rv o1 valueType)
        match vr with
        | none => (dict, o1)
        | some (val, o2) =>
          dictLoopGo rv count data o2 keyType valueType (mapInsert dict key val)

/-- The `TypeObjectArray` element loop: each element is prefixed by its own
type tag. -/
def objArrLoopGo (rv : Nat → Nat → P16Value × Nat) : Nat → List Nat → Nat → List P16Value × Nat
  | 0, _, offset => ([], offset)
  | count + 1, data, offset =>
    if data.length ≤ offset then ([], offset)
    else
      let elemType := data.getD offset 0
      let v := rv (offset + 1) elemType
      let r := objArrLoopGo rv count data v.2
      (v.1 :: r.1, r.2)

/-- `readValue` from src/pkg/photon/protocol16.go (the slice-based decoder the
parser calls).  Returns the decoded value and the new offset.  `fuel` bounds
only the container-nesting depth: every recursive call into a container body
starts at a strictly larger offset, so `data.length + 1` always suffices
(and leaf tags need `fuel ≥ 1`, dictionary entries `fuel ≥ 2`). -/
def readValueGo : Nat → List Nat → Nat → Nat → P16Value × Nat
  | 0, _, offset, _ => (.vnull, offset)
  | fuel + 1, data, offset, paramType =>
    if data.length ≤ offset then (.vnull, offset)
    else if paramType = 0 ∨ paramType = TypeNull then (.vnull, offset)
    else if paramType = TypeByte then (.vbyte (data.getD offset 0), offset + 1)
    else if paramType = TypeBoolean then (.vbool (data.getD offset 0 = 1), offset + 1)
    else if paramType = TypeShort ∨ paramType = 7 then
      if data.length < offset + 2 then (.vnull, offset)
      else (.vshort (toInt16 (beU16At data offset)), offset + 2)
    else if paramType = TypeInteger then
      if data.length < offset + 4 then (.vnull, offset)
      else (.vint (toInt32 (beU32At data offset)), offset + 4)
    else if paramType = TypeLong then
      if data.length < offset + 8 then (.vnull, offset)
      else (.vlong (toInt64n (beU64At data offset)), offset + 8)
    else if paramType = TypeFloat then
      if data.length < offset + 4 then (.vnull, offset)
      else (.vfloatBits (beU32At data offset), offset + 4)
    else if paramType = TypeDouble then
      if data.length < offset + 8 then (.vnull, offset)
      else (.vdoubleBits (beU64At data offset), offset + 8)
    else if paramType = TypeString then
      if data.length < offset + 2 then (.vnull, offset)
      else
        let length := beU16At data offset
        if data.length < offset + 2 + length then (.vstring [], offset + 2)
        else (.vstring (subList data (offset + 2) (offset + 2 + length)), offset + 2 + length)
    else if paramType = TypeByteArray then
      if data.length < offset + 4 then (.vnull, offset)
      else
        let length := beU32At data offset
        if data.length < offset + 4 + length then (.vnull, offset + 4)
        else (.vbytes (subList data (offset + 4) (offset + 4 + length)), offset + 4 + length)
    else if paramType = TypeArray then
      if data.length < offset + 3 then (.vnull, offset)
      else
        let length := beU16At data offset
        let elemType := data.getD (offset + 2) 0
        let r := arrLoopGo (readValueGo fuel data) length data (offset + 3) elemType
        (.varray (r.1 ++ List.replicate (length - r.1.length) .vnull), r.2)
    else if paramType = TypeIntegerArray then
      if data.length < offset + 4 then (.vnull, offset)
      else
        let length := beU32At data offset
        let r := intArrLoopGo length data (offset + 4)
        (.vintArray (r.1 ++ List.replicate (length - r.1.length) 0), r.2)
    else if paramType = TypeStringArray then
      if data.length < offset + 2 then (.vnull, offset)
      else
        let length := beU16At data offset
        let r := strArrLoopGo (readValueGo fuel data) length data (offset + 2)
        (.vstringArray (r.1 ++ List.replicate (length - r.1.length) []), r.2)
    else if paramType = TypeDictionary ∨ paramType = TypeHashtable then
      if data.length < offset + 4 then (.vnull, offset)
      else
        let keyType := data.getD offset 0
        let valueType := data.getD (offset + 1) 0
        let length := beU16At data (offset + 2)
        let r := dictLoopGo (readValueGo fuel data) length data (offset + 4) keyType valueType []
        (.vdict r.1, r.2)
    else if paramType = TypeObjectArray then
      if data.length < offset + 2 then (.vnull, offset)
      else
        let length := beU16At data offset
        let r := objArrLoopGo (readValueGo fuel data) length data (offset + 2)
        (.vobjArray (r.1 ++ List.replicate (length - r.1.length) .vnull), r.2)
    else (.vnull, offset)

/-- Decoded parameter tables: Go `map[byte]interface{}` as an association
list with replace-on-insert semantics. -/
abbrev PMap : Type := List (Nat × P16Value)

/-- Go map insertion `params[paramKey] = value`. -/
def pInsert (m : PMap) (k : Nat) (v : P16Value) : PMap :=
  if (List.any m (fun p => p.1 == k)) then List.map (fun p => if p.1 == k then (k, v) else p) m
  else List.append m [(k, v)]

/-- Go map lookup `params[key]` returning presence. -/
def pGet (m : PMap) (k : Nat) : Option P16Value :=
  match List.find? (fun p => p.1 == k) m with
  | some p => some p.2
  | none => none

/-- The parameter-table loop of `decodeParameterTable`
(src/pkg/photon/protocol16.go): `for i < paramCount && offset < len(data)`,
breaking without an insertion when the type byte is missing. -/
def paramLoopGo (fuel : Nat) : Nat → List Nat → Nat → PMap → PMap
  | 0, _, _, acc => acc
  | count + 1, data, offset, acc =>
    if data.length ≤ offset then acc
    else
      let paramKey := data.getD offset 0
      if data.length ≤ offset + 1 then acc
      else
        let paramType := data.getD (offset + 1) 0
        let v := readValueGo fuel data (offset + 2) paramType
        paramLoopGo fuel count data v.2 (pInsert acc paramKey v.1)

/-- `decodeParameterTable` from src/pkg/photon/protocol16.go.  The fuel
`data.length + 1` always covers the decoder's nesting depth. -/
def decodeParameterTable (data : List Nat) : PMap :=
  if data.length < 2 then []
  else paramLoopGo (data.length + 1) (beU16At data 0) data 2 []

/-! ## BufferReader (the `photon` package's bounds-checked byte cursor)

The single error value `ErrBufferUnderflow` is modelled by the one-constructor
type `BufErr`; each operation returns `Except BufErr` exactly where the Go
method returns `(value, error)`.  Cursors and byte counts are naturals: in
the Go source the offset starts at 0 and only ever grows by the checked
counts, and every count argument the package passes is non-negative. -/

/-- The unique `BufferReader` error kind, `ErrBufferUnderflow`. -/
inductive BufErr where
  | bufferUnderflow : BufErr
  deriving DecidableEq

/-- `BufferReader` state: the buffer and the cursor. -/
structure BufferReader where
  data : List Nat
  offset : Nat
  deriving DecidableEq

namespace BufferReader

/-- `NewBufferReader`. -/
def new (data : List Nat) : BufferReader := ⟨data, 0⟩

/-- `Len`. -/
def Len (r : BufferReader) : Nat := r.data.length

/-- `CanRead`: at least `n` more bytes available. -/
def CanRead (r : BufferReader) (n : Nat) : Bool := r.offset + n ≤ r.data.length

/-- `Remaining`. -/
def Remaining (r : BufferReader) : Nat := r.data.length - r.offset

/-- `IsEmpty`. -/
def IsEmpty (r : BufferReader) : Bool := r.data.length ≤ r.offset

/-- `Skip`.  Every operation returns its Go result paired with the state of
the (in Go, in-place mutated) receiver after the call. -/
def Skip (r : BufferReader) (n : Nat) : Except BufErr Unit × BufferReader :=
  if r.CanRead n then (.ok (), ⟨r.data, r.offset + n⟩) else (.error .bufferUnderflow, r)

/-- `Seek`. -/
def Seek (r : BufferReader) (pos : Nat) : Except BufErr Unit × BufferReader :=
  if pos ≤ r.data.length then (.ok (), ⟨r.data, pos⟩) else (.error .bufferUnderflow, r)

/-- `ReadByte`. -/
def ReadByte (r : BufferReader) : Except BufErr Nat × BufferReader :=
  if r.CanRead 1 then (.ok (r.data.getD r.offset 0), ⟨r.data, r.offset + 1⟩)
  else (.error .bufferUnderflow, r)

/-- `ReadUint16`. -/
def ReadUint16 (r : BufferReader) : Except BufErr Nat × BufferReader :=
  if r.CanRead 2 then (.ok (beU16At r.data r.offset), ⟨r.data, r.offset + 2⟩)
  else (.error .bufferUnderflow, r)

/-- `ReadUint32`. -/
def ReadUint32 (r : BufferReader) : Except BufErr Nat × BufferReader :=
  if r.CanRead 4 then (.ok (beU32At r.data r.offset), ⟨r.data, r.offset + 4⟩)
  else (.error .bufferUnderflow, r)

/-- `ReadUint64`. -/
def ReadUint64 (r : BufferReader) : Except BufErr Nat × BufferReader :=
  if r.CanRead 8 then (.ok (beU64At r.data r.offset), ⟨r.data, r.offset + 8⟩)
  else (.error .bufferUnderflow, r)

/-- `ReadInt8` (delegates to `ReadByte`, reinterpreting the bits). -/
def ReadInt8 (r : BufferReader) : Except BufErr Int × BufferReader :=
  let p := r.ReadByte
  (p.1.map (fun u => if u % 2 ^ 8 < 2 ^ 7 then (u % 2 ^ 8 : Nat) else (u % 2 ^ 8 : Int) - 2 ^ 8), p.2)

/-- `ReadInt16` (delegates to `ReadUint16`). -/
def ReadInt16 (r : BufferReader) : Except BufErr Int × BufferReader :=
  let p := r.ReadUint16
  (p.1.map toInt16, p.2)

/-- `ReadInt32`. -/
def ReadInt32 (r : BufferReader) : Except BufErr Int × BufferReader :=
  let p := r.ReadUint32
  (p.1.map toInt32, p.2)

/-- `ReadInt64`. -/
def ReadInt64 (r : BufferReader) : Except BufErr Int × BufferReader :=
  let p := r.ReadUint64
  (p.1.map toInt64n, p.2)

/-- `ReadFloat32` (delegates to `ReadUint32`; the value is the IEEE-754 bit
pattern, which is all the source computes before `math.Float32frombits`). -/
def ReadFloat32 (r : BufferReader) : Except BufErr Nat × BufferReader :=
  r.ReadUint32

/-- `ReadFloat64`. -/
def ReadFloat64 (r : BufferReader) : Except BufErr Nat × BufferReader :=
  r.ReadUint64

/-- `ReadBytes` (the `ReadBytesNoCopy` variant reads the same bytes and
moves the cursor identically). -/
def ReadBytes (r : BufferReader) (n : Nat) : Except BufErr (List Nat) × BufferReader :=
  if r.CanRead n then (.ok (subList r.data r.offset (r.offset + n)), ⟨r.data, r.offset + n⟩)
  else (.error .bufferUnderflow, r)

/-- `ReadString`: a 2-byte big-endian length prefix, then that many bytes.
The source reads the prefix through `ReadUint16` (which advances the cursor)
before checking that the body fits. -/
def ReadString (r : BufferReader) : Except BufErr (List Nat) × BufferReader :=
  match r.ReadUint16 with
  | (.error e, r1) => (.error e, r1)
  | (.ok length, r1) =>
    if r1.CanRead length then
      (.ok (subList r1.data r1.offset (r1.offset + length)), ⟨r1.data, r1.offset + length⟩)
    else (.error .bufferUnderflow, r1)

/-- `ReadBool`: one byte, `0 = false, != 0 = true`. -/
def ReadBool (r : BufferReader) : Except BufErr Bool × BufferReader :=
  let p := r.ReadByte
  (p.1.map (fun u => u ≠ 0), p.2)

/-- `Peek`: `n` bytes of lookahead; the receiver is never moved. -/
def Peek (r : BufferReader) (n : Nat) : Except BufErr (List Nat) × BufferReader :=
  if r.CanRead n then (.ok (subList r.data r.offset (r.offset + n)), r)
  else (.error .bufferUnderflow, r)

/-- `PeekByte`. -/
def PeekByte (r : BufferReader) : Except BufErr Nat × BufferReader :=
  if r.CanRead 1 then (.ok (r.data.getD r.offset 0), r) else (.error .bufferUnderflow, r)

/-- `Slice`: a sub-reader over the next `n` bytes; the outer cursor advances. -/
def Slice (r : BufferReader) (n : Nat) : Except BufErr BufferReader × BufferReader :=
  if r.CanRead n then
    (.ok (new (subList r.data r.offset (r.offset + n))), ⟨r.data, r.offset + n⟩)
  else (.error .bufferUnderflow, r)

end BufferReader

/-! ## Photon parser (src/pkg/photon/parser.go)

The parser's effects are modelled explicitly: handler callbacks become a
`Dispatch` list, the fragment cache an association list keyed by the start
sequence number, `time.Now()` an explicit `now : Nat`, and a Go runtime
panic (out-of-range index, out-of-range or inverted slice bounds, `make`
with a negative size) the result `none`. -/

/-- A handler callback performed by the parser. -/
inductive Dispatch where
  | onRequest (operationCode : Nat) (parameters : PMap) : Dispatch
  | onResponse (operationCode : Nat) (returnCode : Int) (debugMessage : List Nat)
      (parameters : PMap) : Dispatch
  | onEvent (eventCode : Nat) (parameters : PMap) : Dispatch

/-- Go index `p[i]` with an `int` index: panics (`none`) out of range. -/
def idxI (p : List Nat) (i : Int) : Option Nat :=
  if 0 ≤ i ∧ i < (p.length : Int) then some (p.getD i.toNat 0) else none

/-- `binary.BigEndian.Uint32(p[i:])`: panics when fewer than 4 bytes remain. -/
def beU32I (p : List Nat) (i : Int) : Option Nat :=
  if 0 ≤ i ∧ i + 4 ≤ (p.length : Int) then some (beU32At p i.toNat) else none

/-- Go slice `p[a:b]`: panics unless `0 ≤ a ≤ b ≤ len(p)`. -/
def sliceI (p : List Nat) (a b : Int) : Option (List Nat) :=
  if 0 ≤ a ∧ a ≤ b ∧ b ≤ (p.length : Int) then some (subList p a.toNat b.toNat) else none

/-- `readString` from src/pkg/photon/parser.go (used only for the optional
debug message of an operation response). -/
def readStringGo (data : List Nat) (offset : Nat) : List Nat × Nat :=
  if data.length < offset + 3 then ([], offset)
  else
    let length := beU16At data (offset + 1)
    if data.length < offset + 3 + length then ([], offset + 3)
    else (subList data (offset + 3) (offset + 3 + length), offset + 3 + length)

/-- `decodeOperationRequest`. -/
def decodeOperationRequest (data : List Nat) : List Dispatch :=
  if data.length < 1 then []
  else [.onRequest (data.getD 0 0) (decodeParameterTable (data.drop 1))]

/-- `decodeEventData`. -/
def decodeEventData (data : List Nat) : List Dispatch :=
  if data.length < 1 then []
  else [.onEvent (data.getD 0 0) (decodeParameterTable (data.drop 1))]

/-- `decodeOperationResponse`: operation code, big-endian return code, an
optional debug string (type tag 0 or 42 means none), then the parameters. -/
def decodeOperationResponse (data : List Nat) : List Dispatch :=
  if data.length < 4 then []
  else
    let operationCode := data.getD 0 0
    let returnCode := toInt16 (beU16At data 1)
    let dm : List Nat × Nat :=
      if 3 < data.length then
        let paramType := data.getD 3 0
        if paramType ≠ 0 ∧ paramType ≠ 42 then readStringGo data 3
        else ([], 4)
      else ([], 3)
    [.onResponse operationCode returnCode dm.1 (decodeParameterTable (data.drop dm.2))]

/-- `handleSendReliable`: signal byte must be 243 or 253, message types above
128 are encrypted, then the three decode paths (2/6 request, 3/7 response,
4 event).  The `length` argument mirrors the Go parameter; the indexing
panics are unreachable because every caller passes `length = len(data)`. -/
def handleSendReliable (data : List Nat) (length : Int) : Option (List Dispatch) :=
  if length < 2 then some []
  else
    match data.get? 0 with
    | none => none
    | some signalByte =>
      if signalByte ≠ 243 ∧ signalByte ≠ 253 then some []
      else
        match data.get? 1 with
        | none => none
        | some messageType =>
          if 128 < messageType then some []
          else
            let remaining := data.drop 2
            if messageType = 2 ∨ messageType = 6 then some (decodeOperationRequest remaining)
            else if messageType = 3 ∨ messageType = 7 then some (decodeOperationResponse remaining)
            else if messageType = 4 then some (decodeEventData remaining)
            else some []

/-- One entry of the fragment reassembly cache (`fragmentedPacket`). -/
structure FragEntry where
  totalLength : Int
  payload : List Nat
  bytesWritten : Int
  createdAt : Nat

/-- `pendingFragments`: a map from start sequence number to entry. -/
abbrev FragStore : Type := List (Int × FragEntry)

/-- Go map lookup. -/
def storeGet (s : FragStore) (k : Int) : Option FragEntry :=
  match List.find? (fun p => p.1 == k) s with
  | some p => some p.2
  | none => none

/-- Go map insertion / in-place mutation of the entry at `k`. -/
def storeInsert (s : FragStore) (k : Int) (e : FragEntry) : FragStore :=
  if List.any s (fun p => p.1 == k) then List.map (fun p => if p.1 == k then (k, e) else p) s
  else List.append s [(k, e)]

/-- Go map `delete`. -/
def storeErase (s : FragStore) (k : Int) : FragStore :=
  List.filter (fun p => !(p.1 == k)) s

/-- `copy(dst[at:], src)`: copies `min(len(dst)-at, len(src))` bytes
(callers have established `at ≤ len(dst)`). -/
def copyInto (dst : List Nat) (at_ : Nat) (src : List Nat) : List Nat :=
  dst.take at_ ++ src.take (dst.length - at_) ++ dst.drop (at_ + min src.length (dst.length - at_))

/-- `handleSendFragment`: read the 20-byte fragment sub-header, create the
entry on first sight (`make([]byte, totalLength)` panics on a negative
declared total), copy the fragment when `0 ≤ fragmentOffset` and
`fragmentOffset+fragmentLength ≤ totalLength` (the *declared* total; the
reslice of the entry's buffer panics when `fragmentOffset` exceeds the
buffer), and deliver and drop the entry once `bytesWritten ≥ totalLength`.
The `sequenceNumber` parameter is unused, as in the source. -/
def handleSendFragment (store : FragStore) (now : Nat) (data : List Nat) (length : Int)
    (sequenceNumber : Int) : Option (FragStore × List Dispatch) :=
  if length < 20 then some (store, [])
  else if data.length < 20 then none
  else
    let startSequenceNumber := toInt32 (beU32At data 0)
    let totalLength := toInt32 (beU32At data 12)
    let fragmentOffset : Int := (beU32At data 16 : Nat)
    let fragmentLength : Int := length - 20
    if (data.length : Int) < 20 + fragmentLength then some (store, [])
    else
      let created : Option (FragEntry × FragStore) :=
        match storeGet store startSequenceNumber with
        | some e => some (e, store)
        | none =>
          if totalLength < 0 then none
          else
            let e : FragEntry := ⟨totalLength, List.replicate totalLength.toNat 0, 0, now⟩
            some (e, storeInsert store startSequenceNumber e)
      match created with
      | none => none
      | some (frag, store1) =>
        let step : Option FragEntry :=
          if 0 ≤ fragmentOffset ∧ fragmentOffset + fragmentLength ≤ totalLength then
            if (frag.payload.length : Int) < fragmentOffset then none
            else some { frag with
              payload := copyInto frag.payload fragmentOffset.toNat
                (subList data 20 (20 + fragmentLength).toNat),
              bytesWritten := frag.bytesWritten + fragmentLength }
          else some frag
        match step with
        | none => none
        | some frag1 =>
          if frag1.totalLength ≤ frag1.bytesWritten then
            match handleSendReliable frag1.payload frag1.totalLength with
            | none => none
            | some ds => some (storeErase store1 startSequenceNumber, ds)
          else some (storeInsert store1 startSequenceNumber frag1, [])

/-- The command loop of `ParsePacket`: up to `commandCount` commands while
the offset is inside the payload and a 12-byte command header fits; a
declared command length that puts the body past the end of the payload
breaks the loop; command types 4/6/7/8 are disconnect, reliable,
unreliable and fragment.  The slice expressions panic exactly where the Go
code would (a declared command length below 12 yields a negative body length
and an inverted slice; a negative running offset an out-of-range index). -/
def cmdLoopGo (now : Nat) (payload : List Nat) :
    Nat → Int → FragStore → List Dispatch →
    Option (Except String Unit × FragStore × List Dispatch)
  | 0, _, store, acc => some (.ok (), store, acc)
  | count + 1, offset, store, acc =>
    if ¬ offset < (payload.length : Int) then some (.ok (), store, acc)
    else if (payload.length : Int) < offset + 12 then some (.ok (), store, acc)
    else
      match idxI payload offset with
      | none => none
      | some commandType =>
        match beU32I payload (offset + 4), beU32I payload (offset + 8) with
        | some clRaw, some seqRaw =>
          let sequenceNumber := toInt32 seqRaw
          let commandLength : Int := (clRaw : Int) - 12
          let o9 := offset + 12
          if (payload.length : Int) < o9 + commandLength then some (.ok (), store, acc)
          else if commandType = 4 then some (.ok (), store, acc)
          else if commandType = 7 then
            let o10 := o9 + 4
            let cl10 := commandLength - 4
            match sliceI payload o10 (o10 + cl10) with
            | none => none
            | some d =>
              match handleSendReliable d cl10 with
              | none => none
              | some ds => cmdLoopGo now payload count (o10 + cl10) store (acc ++ ds)
          else if commandType = 6 then
            match sliceI payload o9 (o9 + commandLength) with
            | none => none
            | some d =>
              match handleSendReliable d commandLength with
              | none => none
              | some ds => cmdLoopGo now payload count (o9 + commandLength) store (acc ++ ds)
          else if commandType = 8 then
            match sliceI payload o9 (o9 + commandLength) with
            | none => none
            | some d =>
              match handleSendFragment store now d commandLength sequenceNumber with
              | none => none
              | some r => cmdLoopGo now payload count (o9 + commandLength) r.1 (acc ++ r.2)
          else cmdLoopGo now payload count (o9 + commandLength) store acc
        | _, _ => none

/-- `ParsePacket` from src/pkg/photon/parser.go: reject payloads shorter
than the 12-byte Photon header, skip encrypted packets (`flags == 1`), skip
a 4-byte CRC field (`flags == 0xCC`), then run the command loop.  `none`
models a Go panic. -/
def ParsePacket (store : FragStore) (now : Nat) (payload : List Nat) :
    Option (Except String Unit × FragStore × List Dispatch) :=
  if payload.length < 12 then some (.error "packet too short", store, [])
  else
    let flags := payload.getD 2 0
    let commandCount := payload.getD 3 0
    let isEncrypted := flags = 1
    let isCrcEnabled := flags = 204
    if isEncrypted then some (.ok (), store, [])
    else
      let offset : Int := if isCrcEnabled then 16 else 12
      cmdLoopGo now payload commandCount offset store []

/-! ## Albion event interpreter (src/pkg/handlers/albion.go)

The handler's mutable fields become `AlbionState`; `notifyEvent` calls
become a list of emitted `GameEvent`s.  The structured payload passed to the
callback is modelled by `EventData`, whose constructors carry exactly the
fields of the source structs: `FameEventData{Gained, Total, Session}`,
`SilverEventData{Amount, Session}`, and `noData` for a `nil` payload.  The
human-readable message strings (where the looter names and item names
appear) are presentation only and are not modelled. -/

/-- The session-accounting fields of `AlbionHandler`. -/
structure AlbionState where
  totalFame : Int
  sessionFame : Int
  sessionSilver : Int
  sessionKills : Int
  sessionDeaths : Int
  sessionLoot : Int
  deriving DecidableEq

/-- `NewAlbionHandler()`: all session counters start at zero. -/
def initialAlbionState : AlbionState := ⟨0, 0, 0, 0, 0, 0⟩

/-- The structured payload (`data interface{}`) of an emitted event. -/
inductive EventData where
  | noData : EventData
  | fameData (gained total session : Int) : EventData
  | silverData (amount session : Int) : EventData
  deriving DecidableEq

/-- One `notifyEvent(eventType, message, data)` call (message omitted). -/
structure GameEvent where
  tag : String
  data : EventData
  deriving DecidableEq

/-- Go `int32(v)` applied to an `int64` value: wrap into signed 32-bit. -/
def wrap32 (v : Int) : Int := toInt32 (v % 2 ^ 32).toNat

/-- Go `int16(v)` applied to a wider value: wrap into signed 16-bit. -/
def wrap16 (v : Int) : Int := toInt16 (v % 2 ^ 16).toNat

/-- `getInt64`: accepts int64/int32/int16 (and Go `int`, which never occurs
in decoded parameters), else 0.  A byte value yields 0 here. -/
def getInt64 (params : PMap) (key : Nat) : Int :=
  match pGet params key with
  | some (.vlong v) => v
  | some (.vint v) => v
  | some (.vshort v) => v
  | _ => 0

/-- `getInt32`: accepts int32/int64/int16 (and Go `int`), truncating wider
values, else 0. -/
def getInt32 (params : PMap) (key : Nat) : Int :=
  match pGet params key with
  | some (.vint v) => v
  | some (.vlong v) => wrap32 v
  | some (.vshort v) => v
  | _ => 0

/-- `getString`. -/
def getString (params : PMap) (key : Nat) : List Nat :=
  match pGet params key with
  | some (.vstring s) => s
  | _ => []

/-- `getBool`. -/
def getBool (params : PMap) (key : Nat) : Bool :=
  match pGet params key with
  | some (.vbool b) => b
  | _ => false

/-- `toInt64`: widens int64/int32/int16/uint8; the float32/float64 branches
truncate the float toward zero in Go — no claim exercises them and IEEE-754
arithmetic is outside this embedding, so they are mapped to the function's
default 0 here. -/
def toInt64 (val : P16Value) : Int :=
  match val with
  | .vlong v => v
  | .vint v => v
  | .vshort v => v
  | .vbyte b => b
  | _ => 0

/-- `int64(math.Floor(float64(x) / 10000.0))`, the FixPoint display
conversion.  For `|x| < 2^53` the conversion to `float64` is exact and the
quotient is below `2^40`, where a half-ulp is smaller than `1/10000`, so the
floored rounded quotient equals the exact floored quotient: the expression
is exactly floored integer division on that range (which covers every
claim's inputs; theorems about the produced amounts carry the range
hypothesis explicitly). -/
def fixPointFloor (x : Int) : Int := Int.fdiv x 10000

/-- `handleUpdateFame` (codes 81 and 82): reject totals below 1,000,000,
deduplicate on an exactly-repeated total, reject decreases from a positive
stored total; then in the detailed format (key 2 present) emit when the
floored gain is positive, and in the simple format emit the floored
difference from a positive stored total, always storing the new total. -/
def handleUpdateFame (h : AlbionState) (params : PMap) : AlbionState × List GameEvent :=
  let totalFame := getInt64 params 1
  if totalFame < 1000000 then (h, [])
  else if totalFame = h.totalFame then (h, [])
  else
    let hasDetailedFormat := (pGet params 2).isSome
    let fameGained := match pGet params 2 with | some v => toInt64 v | none => 0
    if 0 < h.totalFame ∧ totalFame < h.totalFame then (h, [])
    else
      let totalFameVal := fixPointFloor totalFame
      if hasDetailedFormat then
        let fameGainedVal := fixPointFloor fameGained
        if 0 < fameGainedVal then
          let h1 := { h with sessionFame := h.sessionFame + fameGainedVal, totalFame := totalFame }
          (h1, [⟨"fame", .fameData fameGainedVal totalFameVal h1.sessionFame⟩])
        else (h, [])
      else
        if 0 < h.totalFame then
          let gained := totalFame - h.totalFame
          if 0 < gained then
            let gainedVal := fixPointFloor gained
            let h1 := { h with sessionFame := h.sessionFame + gainedVal, totalFame := totalFame }
            (h1, [⟨"fame", .fameData gainedVal totalFameVal h1.sessionFame⟩])
          else ({ h with totalFame := totalFame }, [])
        else ({ h with totalFame := totalFame }, [])

/-- `handleOtherGrabbedLoot` (code 275): the currency branch floors the key-5
amount by 10000, adds it to the session silver and emits a "silver" event
whose structured payload is `SilverEventData{Amount, Session}`; the item
branch bumps the loot count and emits a "loot" event with a `nil` payload
(the item name and quantity appear only in the message string). -/
def handleOtherGrabbedLoot (h : AlbionState) (params : PMap) : AlbionState × List GameEvent :=
  let isSilver := getBool params 3
  if isSilver then
    let silverAmountRaw := getInt64 params 5
    let silverAmount := fixPointFloor silverAmountRaw
    let h1 := { h with sessionSilver := h.sessionSilver + silverAmount }
    (h1, [⟨"silver", .silverData silverAmount h1.sessionSilver⟩])
  else
    let h1 := { h with sessionLoot := h.sessionLoot + 1 }
    (h1, [⟨"loot", .noData⟩])

/-- `handleKilledPlayer` (code 170). -/
def handleKilledPlayer (h : AlbionState) (_params : PMap) : AlbionState × List GameEvent :=
  let h1 := { h with sessionKills := h.sessionKills + 1 }
  (h1, [⟨"kill", .noData⟩])

/-- `handleDied` (code 171). -/
def handleDied (h : AlbionState) (_params : PMap) : AlbionState × List GameEvent :=
  let h1 := { h with sessionDeaths := h.sessionDeaths + 1 }
  (h1, [⟨"death", .noData⟩])

/-- `OnEvent`: resolve the event code (parameter key 252 overrides the
envelope byte, narrowed to int16) and route to the per-code handlers.  The
money/health/new-character/new-loot handlers perform no callback; the
discovery-mode catalogue is bookkeeping outside the claims and is not
modelled. -/
def OnEvent (h : AlbionState) (eventCode : Nat) (params : PMap) : AlbionState × List GameEvent :=
  let actualEventCode : Int :=
    match pGet params 252 with
    | some (.vshort v) => v
    | some (.vint v) => wrap16 v
    | some (.vlong v) => wrap16 v
    | _ => (eventCode : Int)
  if actualEventCode = 81 ∨ actualEventCode = 82 then handleUpdateFame h params
  else if actualEventCode = 80 then (h, [])
  else if actualEventCode = 6 then (h, [])
  else if actualEventCode = 29 then (h, [])
  else if actualEventCode = 275 then handleOtherGrabbedLoot h params
  else if actualEventCode = 98 then (h, [])
  else if actualEventCode = 170 then handleKilledPlayer h params
  else if actualEventCode = 171 then handleDied h params
  else (h, [])

/-! ## Stats and the stats-updating ParsePacket

The `Stats` counter bundle is in the sources (the `photon` package's stats
file).  The parser generation that owns a public `Stats` field and bumps
these counters is referenced by its callers (`pkg/backend/service.go` reads
`s.parser.Stats`) but that parser file itself is not among the sources, so
its bookkeeping is modelled from the spec below. -/

/-- The `Stats` counter bundle (timestamps as abstract `Nat` instants). -/
structure Stats where
  packetsReceived : Nat
  packetsProcessed : Nat
  packetsEncrypted : Nat
  packetsWithCRC : Nat
  packetsMalformed : Nat
  fragmentsReceived : Nat
  fragmentsCompleted : Nat
  fragmentsExpired : Nat
  eventsDecoded : Nat
  requestsDecoded : Nat
  responsesDecoded : Nat
  bytesReceived : Nat
  startTime : Nat
  lastPacketTime : Nat
  deriving DecidableEq

/-- `NewStats()` at instant `t`. -/
def newStats (t : Nat) : Stats := ⟨0, 0, 0, 0, 0, 0, 0, 0, 0, 0, 0, 0, t, t⟩

/-- Bump the events/requests/responses-decoded counters for one dispatch. -/
def bumpDecoded (s : Stats) : Dispatch → Stats
  | .onRequest _ _ => { s with requestsDecoded := s.requestsDecoded + 1 }
  | .onResponse _ _ _ _ => { s with responsesDecoded := s.responsesDecoded + 1 }
  | .onEvent _ _ => { s with eventsDecoded := s.eventsDecoded + 1 }

/-- Fold `bumpDecoded` over a dispatch list. -/
def bumpDecodedAll (s : Stats) (ds : List Dispatch) : Stats := ds.foldl bumpDecoded s

/-- Modelled from the spec: the command loop of the stats-updating parser
(spec §4.3 step 3), whose source file is missing (only `Stats` itself, its
tests and its callers are among the sources).  Per the spec: iterate
`command_count` times while at least 12 bytes remain; `data_length =
command_length − 12`; stop when the remainder cannot hold the body (a
negative `data_length` — a declared length below 12 — makes locating the
next command impossible and also stops, per the failure policy of §4.3);
disconnect returns immediately; reliable/unreliable/fragment bodies go to
the handlers of §4.3, whose behaviour the source-modelled functions above
provide (their panic case is unreachable on the exact slices passed here and
is totalized away, the spec parser never panicking).  Fragment receipt
always counts; decoded messages count by kind.  The returned flag is true on
an early (disconnect) return, which skips the packets-processed bump. -/
def specCmdLoop (now : Nat) (payload : List Nat) :
    Nat → Nat → Stats → FragStore → List Dispatch →
    Stats × FragStore × List Dispatch × Bool
  | 0, _, s, store, acc => (s, store, acc, false)
  | count + 1, offset, s, store, acc =>
    if payload.length < offset + 12 then (s, store, acc, false)
    else
      let commandType := payload.getD offset 0
      let clRaw := beU32At payload (offset + 4)
      let sequenceNumber := toInt32 (beU32At payload (offset + 8))
      let dataLength : Int := (clRaw : Int) - 12
      let o9 := offset + 12
      if dataLength < 0 then (s, store, acc, false)
      else if ((payload.length : Int) - (o9 : Int)) < dataLength then (s, store, acc, false)
      else if commandType = 4 then (s, store, acc, true)
      else if commandType = 6 then
        let body := subList payload o9 (o9 + dataLength.toNat)
        let ds := (handleSendReliable body dataLength).getD []
        specCmdLoop now payload count (o9 + dataLength.toNat) (bumpDecodedAll s ds) store (acc ++ ds)
      else if commandType = 7 then
        let body := subList payload (o9 + 4) (o9 + dataLength.toNat)
        let ds := (handleSendReliable body (dataLength - 4)).getD []
        specCmdLoop now payload count (o9 + dataLength.toNat) (bumpDecodedAll s ds) store (acc ++ ds)
      else if commandType = 8 then
        let body := subList payload o9 (o9 + dataLength.toNat)
        let s1 := { s with fragmentsReceived := s.fragmentsReceived + 1 }
        let r := (handleSendFragment store now body dataLength sequenceNumber).getD (store, [])
        specCmdLoop now payload count (o9 + dataLength.toNat) (bumpDecodedAll s1 r.2) r.1 (acc ++ r.2)
      else specCmdLoop now payload count (o9 + dataLength.toNat) s store acc

/-- Modelled from the spec: `ParsePacket` of the stats-updating parser
(spec §4.3 steps 1, 2 and 4).  Step 1: record bytes received, packets
received, and stamp the last-packet time; payloads shorter than 12 bytes
count as malformed and are rejected.  Step 2: `flags == 1` counts as
encrypted and returns; `flags == 0xCC` counts as CRC-enabled and skips four
CRC bytes.  Step 4: on normal loop exit, packets-processed increments. -/
def ParsePacketStats (stats : Stats) (store : FragStore) (now : Nat) (payload : List Nat) :
    Stats × FragStore × List Dispatch × Except String Unit :=
  let s1 := { stats with
    bytesReceived := stats.bytesReceived + payload.length,
    packetsReceived := stats.packetsReceived + 1,
    lastPacketTime := now }
  if payload.length < 12 then
    ({ s1 with packetsMalformed := s1.packetsMalformed + 1 }, store, [], .error "packet too short")
  else
    let flags := payload.getD 2 0
    let commandCount := payload.getD 3 0
    if flags = 1 then
      ({ s1 with packetsEncrypted := s1.packetsEncrypted + 1 }, store, [], .ok ())
    else
      let s2 := if flags = 204 then { s1 with packetsWithCRC := s1.packetsWithCRC + 1 } else s1
      let offset := if flags = 204 then 16 else 12
      let r := specCmdLoop now payload commandCount offset s2 store []
      let s3 := if r.2.2.2 then r.1 else { r.1 with packetsProcessed := r.1.packetsProcessed + 1 }
      (s3, r.2.1, r.2.2.1, .ok ())

/-! ## Cursor discipline of the BufferReader operations -/

/-- An operation obeys the cursor law for a consumed-byte count `k`: it
either succeeds and advances the cursor by exactly `k`, or fails with the
single underflow error and leaves the reader untouched. -/
def cursorOk {α : Type} (op : BufferReader → Except BufErr α × BufferReader) (k : Nat) : Prop :=
  ∀ r : BufferReader,
    (∃ v, op r = (.ok v, ⟨r.data, r.offset + k⟩)) ∨ op r = (.error .bufferUnderflow, r)

/-- The fixed-width guard pattern shared by the primitive reads. -/
theorem cursorOk_guard {α : Type} (f : BufferReader → α) (k : Nat) :
    cursorOk (fun r => if r.CanRead k then (.ok (f r), ⟨r.data, r.offset + k⟩)
      else (.error .bufferUnderflow, r)) k := by
  intro r
  by_cases h : r.CanRead k
  · exact Or.inl ⟨f r, by simp [h]⟩
  · exact Or.inr (by simp [h])

/-- A zero-width (peek) guard pattern never moves the reader; restated as
advancing by zero. -/
theorem cursorOk_peek {α : Type} (f : BufferReader → α) (k : Nat) :
    cursorOk (fun r => if r.CanRead k then (.ok (f r), r) else (.error .bufferUnderflow, r)) 0 := by
  intro r
  by_cases h : r.CanRead k
  · exact Or.inl ⟨f r, by simp [h]⟩
  · exact Or.inr (by simp [h])

/-- Transfer of the cursor law through a result-only `map` (the signed and
float and bool wrappers reinterpret the value and keep the state). -/
theorem cursorOk_map {α β : Type} {op : BufferReader → Except BufErr α × BufferReader} {k : Nat}
    (g : α → β) (h : cursorOk op k) :
    cursorOk (fun r => ((op r).1.map g, (op r).2)) k := by
  intro r
  rcases h r with ⟨v, hv⟩ | hv
  · exact Or.inl ⟨g v, by simp only [hv]; rfl⟩
  · exact Or.inr (by simp only [hv]; rfl)

/-! ## Claim theorems -/

/-- C4 (counterexample): the claim says a `ReadString` that fails because
the string body is truncated leaves the cursor where it was before the call.
On the two-byte buffer `[0, 5]` (length prefix 5, no body) `ReadString`
fails with the underflow error but the cursor ends at 2, not at the original
position 0. -/
theorem readString_truncated_body_moves_cursor :
    BufferReader.ReadString ⟨[0, 5], 0⟩ = (.error .bufferUnderflow, ⟨[0, 5], 2⟩) ∧
      (2 : Nat) ≠ 0 :=
  ⟨rfl, by decide⟩

/-- C4 (amended): every primitive `BufferReader` operation either succeeds
and advances the cursor by exactly the consumed byte count, or fails with
the single error kind `ErrBufferUnderflow` and leaves the reader unchanged —
except `ReadString`, which on a truncated body fails with the underflow
error but leaves the cursor advanced past the 2-byte length prefix it
already consumed (only a failure of the prefix read itself leaves the
cursor at its original position). -/
theorem bufferReader_cursor_discipline :
    cursorOk BufferReader.ReadByte 1 ∧
    cursorOk BufferReader.ReadUint16 2 ∧
    cursorOk BufferReader.ReadUint32 4 ∧
    cursorOk BufferReader.ReadUint64 8 ∧
    cursorOk BufferReader.ReadInt8 1 ∧
    cursorOk BufferReader.ReadInt16 2 ∧
    cursorOk BufferReader.ReadInt32 4 ∧
    cursorOk BufferReader.ReadInt64 8 ∧
    cursorOk BufferReader.ReadFloat32 4 ∧
    cursorOk BufferReader.ReadFloat64 8 ∧
    cursorOk BufferReader.ReadBool 1 ∧
    (∀ n, cursorOk (fun r => r.ReadBytes n) n) ∧
    (∀ n, cursorOk (fun r => r.Skip n) n) ∧
    (∀ n, cursorOk (fun r => r.Peek n) 0) ∧
    cursorOk BufferReader.PeekByte 0 ∧
    (∀ n, cursorOk (fun r => r.Slice n) n) ∧
    (∀ r : BufferReader,
      (∃ s, r.ReadString = (.ok s, ⟨r.data, r.offset + 2 + beU16At r.data r.offset⟩)) ∨
      (r.ReadString = (.error .bufferUnderflow, r) ∧ r.data.length < r.offset + 2) ∨
      (r.ReadString = (.error .bufferUnderflow, ⟨r.data, r.offset + 2⟩) ∧
        r.offset + 2 ≤ r.data.length)) := by
  refine ⟨cursorOk_guard _ 1, cursorOk_guard _ 2, cursorOk_guard _ 4, cursorOk_guard _ 8,
    cursorOk_map _ (cursorOk_guard _ 1), cursorOk_map _ (cursorOk_guard _ 2),
    cursorOk_map _ (cursorOk_guard _ 4), cursorOk_map _ (cursorOk_guard _ 8),
    cursorOk_guard _ 4, cursorOk_guard _ 8, cursorOk_map _ (cursorOk_guard _ 1),
    fun n => cursorOk_guard _ n, fun n => cursorOk_guard _ n,
    fun n => cursorOk_peek _ n, cursorOk_peek _ 1, fun n => cursorOk_guard _ n, ?_⟩
  intro r
  by_cases h2 : r.CanRead 2
  · by_cases hb : BufferReader.CanRead ⟨r.data, r.offset + 2⟩ (beU16At r.data r.offset)
    · refine Or.inl ⟨subList r.data (r.offset + 2) (r.offset + 2 + beU16At r.data r.offset), ?_⟩
      simp [BufferReader.ReadString, BufferReader.ReadUint16, h2, hb]
    · refine Or.inr (Or.inr ⟨?_, ?_⟩)
      · simp [BufferReader.ReadString, BufferReader.ReadUint16, h2, hb]
      · simpa [BufferReader.CanRead] using h2
  · refine Or.inr (Or.inl ⟨?_, ?_⟩)
    · simp [BufferReader.ReadString, BufferReader.ReadUint16, h2]
    · have := h2
      simp [BufferReader.CanRead] at this
      omega

/-- C5: for the Protocol16 boolean decode the spec and the claim say a byte
decodes to `false` iff it is 0 (so `0xFF` is `true`), and the repository's
own `BufferReader.ReadBool` (`0 = false, != 0 = true`) agrees; but the
slice-based `readValue` the parser uses decodes with `data[offset] == 1`, so
the byte `0xFF` decodes to `false` there.  This theorem evaluates both at
the failing input. -/
theorem readValue_boolean_ff_divergence :
    readValueGo 2 [255] 0 TypeBoolean = (.vbool false, 1) ∧
      BufferReader.ReadBool ⟨[255], 0⟩ = (.ok true, ⟨[255], 1⟩) ∧
      readValueGo 2 [2] 0 TypeBoolean = (.vbool false, 1) :=
  ⟨rfl, rfl, rfl⟩

/-- C1: the claim says `ParsePacket` runs to completion on every payload and
never evaluates an out-of-bounds or negative-length slice even when a
command header declares a command length smaller than 12.  On this 24-byte
payload — a valid Photon header with `commandCount = 1` followed by a
send-reliable command header whose declared command length is 0 — the code
computes a body length of `0 − 12 = −12` and evaluates `payload[24:12]`, a
slice-bounds panic (`none` in the model). -/
theorem parsePacket_short_command_panics :
    ParsePacket [] 0 ([0, 0, 0, 1, 0, 0, 0, 0, 0, 0, 0, 0] ++
      [6, 0, 0, 0, 0, 0, 0, 0, 0, 0, 0, 1]) = none := rfl

/-- C10 (counterexample): the claim says `ParsePacket` returns `nil` for
every payload of at least 12 bytes.  This 24-byte payload — a send-unreliable
command whose declared command length is exactly 12, leaving a body of 0
bytes that the extra 4-byte unreliable sequence turns negative — makes the
code evaluate `payload[28:24]` and panic instead of returning. -/
theorem parsePacket_unreliable_panics_not_nil :
    ParsePacket [] 0 ([0, 0, 0, 1, 0, 0, 0, 0, 0, 0, 0, 0] ++
      [7, 0, 0, 0, 0, 0, 0, 12, 0, 0, 0, 2]) = none ∧
    ([0, 0, 0, 1, 0, 0, 0, 0, 0, 0, 0, 0] ++
      [7, 0, 0, 0, 0, 0, 0, 12, 0, 0, 0, 2] : List Nat).length = 24 :=
  ⟨rfl, rfl⟩

/-- The command loop never produces an error value: every `some` result it
returns carries `Except.ok`. -/
theorem cmdLoopGo_ok (now : Nat) (payload : List Nat) :
    ∀ (count : Nat) (offset : Int) (store : FragStore) (acc : List Dispatch) r,
      cmdLoopGo now payload count offset store acc = some r → r.1 = .ok () := by
  intro count
  induction count with
  | zero =>
    intro offset store acc r h
    simp only [cmdLoopGo] at h
    cases h
    rfl
  | succ n ih =>
    intro offset store acc r h
    simp only [cmdLoopGo] at h
    split at h
    · cases h; rfl
    · split at h
      · cases h; rfl
      · split at h
        · exact absurd h (by simp)
        · split at h
          · split at h
            · cases h; rfl
            · split at h
              · cases h; rfl
              · split at h
                · split at h
                  · exact absurd h (by simp)
                  · split at h
                    · exact absurd h (by simp)
                    · exact ih _ _ _ _ h
                · split at h
                  · split at h
                    · exact absurd h (by simp)
                    · split at h
                      · exact absurd h (by simp)
                      · exact ih _ _ _ _ h
                  · split at h
                    · split at h
                      · exact absurd h (by simp)
                      · split at h
                        · exact absurd h (by simp)
                        · exact ih _ _ _ _ h
                    · exact ih _ _ _ _ h
          · exact absurd h (by simp)

/-- C10 (amended): `ParsePacket` returns a non-nil error exactly when the
payload is shorter than 12 bytes, *among the calls that return at all*: a
payload of at least 12 bytes either returns `nil` or panics (the
counterexample shows a panicking 24-byte payload). -/
theorem parsePacket_error_iff_short (store : FragStore) (now : Nat) (payload : List Nat) :
    (payload.length < 12 →
      ParsePacket store now payload = some (.error "packet too short", store, [])) ∧
    (∀ r, ParsePacket store now payload = some r →
      ((∃ msg, r.1 = .error msg) ↔ payload.length < 12)) := by
  constructor
  · intro h
    simp [ParsePacket, h]
  · intro r hr
    by_cases h : payload.length < 12
    · simp only [ParsePacket, if_pos h] at hr
      cases hr
      simp [h]
    · simp only [ParsePacket, if_neg h] at hr
      split at hr
      · cases hr
        simp [h]
      · have := cmdLoopGo_ok now payload _ _ _ _ _ hr
        simp [this, h]

/-- C10 (witness): the amended theorem applied to a 1-byte payload. -/
theorem parsePacket_error_iff_short_witness :
    ParsePacket [] 0 [0] = some (.error "packet too short", [], []) :=
  (parsePacket_error_iff_short [] 0 [0]).1 (by decide)

/-- `handleUpdateFame` emits at most one event per call. -/
theorem fame_emits_le_one (h : AlbionState) (p : PMap) :
    (handleUpdateFame h p).2.length ≤ 1 := by
  unfold handleUpdateFame
  by_cases c1 : getInt64 p 1 < 1000000
  · simp [c1]
  by_cases c2 : getInt64 p 1 = h.totalFame
  · simp [c1, c2]
  by_cases c3 : 0 < h.totalFame ∧ getInt64 p 1 < h.totalFame
  · simp [c1, c2, c3]
  by_cases c4 : (pGet p 2).isSome
  · simp only [c1, c2, c3, c4, if_true, if_false, ite_false, ite_true]
    split <;> simp
  · simp only [c1, c2, c3, c4, if_true, if_false, ite_false, ite_true]
    repeat' split
    all_goals simp

/-- An event whose key-1 total equals the stored total is dropped with the
state unchanged (the deduplication branch, or the low-total branch when the
shared value is below the threshold). -/
theorem fame_same_total (h : AlbionState) (p : PMap) (heq : getInt64 p 1 = h.totalFame) :
    handleUpdateFame h p = (h, []) := by
  unfold handleUpdateFame
  by_cases c1 : getInt64 p 1 < 1000000
  · simp [c1]
  · simp [c1, heq]

/-- Whenever `handleUpdateFame` emits, it stores the event's key-1 total. -/
theorem fame_emit_stores (h : AlbionState) (p : PMap)
    (hne : (handleUpdateFame h p).2 ≠ []) :
    (handleUpdateFame h p).1.totalFame = getInt64 p 1 := by
  unfold handleUpdateFame at hne ⊢
  by_cases c1 : getInt64 p 1 < 1000000
  · simp [c1] at hne
  by_cases c2 : getInt64 p 1 = h.totalFame
  · simp [c1, c2] at hne
  by_cases c3 : 0 < h.totalFame ∧ getInt64 p 1 < h.totalFame
  · simp [c1, c2, c3] at hne
  by_cases c4 : (pGet p 2).isSome
  · simp only [c1, c2, c3, c4, if_true, if_false, ite_false, ite_true] at hne ⊢
    split at hne <;> simp_all
  · simp only [c1, c2, c3, c4, if_true, if_false, ite_false, ite_true] at hne ⊢
    repeat' split at hne
    all_goals simp_all

/-- C7 (counterexample): the claim says a pair of successive
experience-point events with identical key-1 totals emits exactly one
"fame" event.  From a fresh session, two successive simple-format events
with total 2,000,000 emit zero events: the first is the session's first
observation (stored total 0, no gain computable), the second is
deduplicated. -/
theorem fame_pair_zero_emissions :
    (handleUpdateFame initialAlbionState [(1, .vlong 2000000)]).2.length +
      (handleUpdateFame (handleUpdateFame initialAlbionState [(1, .vlong 2000000)]).1
        [(1, .vlong 2000000)]).2.length = 0 ∧ (0 : Nat) ≠ 1 :=
  ⟨rfl, by decide⟩

/-- C7 (amended): across any pair of successive experience-point events
with identical key-1 totals, *at most* one "fame" event is emitted (exactly
one when the first event of the pair itself emits; zero when the first is
suppressed — first observation of a session, low total, duplicate, or
decrease). -/
theorem fame_pair_at_most_one (h : AlbionState) (p1 p2 : PMap)
    (heq : getInt64 p1 1 = getInt64 p2 1) :
    (handleUpdateFame h p1).2.length +
      (handleUpdateFame (handleUpdateFame h p1).1 p2).2.length ≤ 1 := by
  by_cases hb : (handleUpdateFame h p1).2 = []
  · rw [hb]
    simpa using fame_emits_le_one (handleUpdateFame h p1).1 p2
  · have hst := fame_emit_stores h p1 hb
    have hdedup : handleUpdateFame (handleUpdateFame h p1).1 p2 = ((handleUpdateFame h p1).1, []) :=
      fame_same_total _ _ (by rw [← heq, hst])
    rw [hdedup]
    simpa using fame_emits_le_one h p1

/-- C7 (witness): the amended theorem at a concrete pair that emits once —
stored total 40,000,000,000 and a simple event raising it by 5,000,000. -/
theorem fame_pair_at_most_one_witness :
    (handleUpdateFame ⟨40000000000, 0, 0, 0, 0, 0⟩ [(1, .vlong 40005000000)]).2.length +
      (handleUpdateFame
        (handleUpdateFame ⟨40000000000, 0, 0, 0, 0, 0⟩ [(1, .vlong 40005000000)]).1
        [(1, .vlong 40005000000)]).2.length ≤ 1 :=
  fame_pair_at_most_one ⟨40000000000, 0, 0, 0, 0, 0⟩ _ _ rfl

/-- C8: an experience-point event whose key-1 total is below 1,000,000, or
equal to the stored total, or below a non-zero stored total, emits nothing
and leaves the handler state (in particular the session fame counter and
the stored total) unchanged. -/
theorem fame_guard_no_emission (h : AlbionState) (params : PMap)
    (hg : getInt64 params 1 < 1000000 ∨ getInt64 params 1 = h.totalFame ∨
      (h.totalFame ≠ 0 ∧ getInt64 params 1 < h.totalFame)) :
    handleUpdateFame h params = (h, []) := by
  unfold handleUpdateFame
  by_cases c1 : getInt64 params 1 < 1000000
  · simp [c1]
  by_cases c2 : getInt64 params 1 = h.totalFame
  · simp [c1, c2]
  rcases hg with hg | hg | ⟨hz, hlt⟩
  · exact absurd hg c1
  · exact absurd hg c2
  have c3 : 0 < h.totalFame ∧ getInt64 params 1 < h.totalFame := ⟨by omega, hlt⟩
  simp [c1, c2, c3]

/-- C8 (witness): the theorem at a low-total event (total 500,000 on a
fresh handler). -/
theorem fame_guard_no_emission_witness :
    handleUpdateFame initialAlbionState [(1, .vlong 500000)] = (initialAlbionState, []) :=
  fame_guard_no_emission initialAlbionState [(1, .vlong 500000)] (Or.inl (by decide))

/-- C9: the claim says the "silver" event carries a structured payload with
fields amount, session, lootedBy and lootedFrom, and the "loot" event one
with itemName, itemId, quantity, lootedBy and lootedFrom.  Evaluating the
handler at the repository's own test inputs: the silver payload is
`SilverEventData` with only the amount (floor(50,000,000/10000) = 5,000) and
session fields, and the loot event's payload is `nil` — the looter names and
item identity appear only in the message strings.  (The repository's test
file asserts `LootedBy`/`LootedFrom` fields on the silver payload, so the
claim matches the tests and the shipped struct is the slip.) -/
theorem otherGrabbedLoot_payload_fields :
    handleOtherGrabbedLoot initialAlbionState
      [(1, .vstring [77]), (2, .vstring [80]), (3, .vbool true), (4, .vint 0),
        (5, .vlong 50000000)] =
      ({ initialAlbionState with sessionSilver := 5000 },
        [⟨"silver", .silverData 5000 5000⟩]) ∧
    handleOtherGrabbedLoot initialAlbionState
      [(1, .vstring [67]), (2, .vstring [80]), (3, .vbool false), (4, .vint 12345),
        (5, .vint 3)] =
      ({ initialAlbionState with sessionLoot := 1 }, [⟨"loot", .noData⟩]) :=
  ⟨rfl, rfl⟩

/-- Replacing the entry at a key that no list element carries is the
identity. -/
theorem mapReplace_eq_self (s : FragStore) (k : Int) (e : FragEntry)
    (h : ∀ p ∈ s, (p.1 == k) = false) :
    List.map (fun p => if p.1 == k then (k, e) else p) s = s := by
  induction s with
  | nil => rfl
  | cons a tl ih =>
    have ha := h a (by simp)
    simp only [List.map_cons, ha, Bool.false_eq_true, if_false]
    rw [ih (fun p hp => h p (by simp [hp]))]

/-- A key that `storeGet` misses occurs in no element. -/
theorem storeGet_none_noKey (s : FragStore) (k : Int) (h : storeGet s k = none) :
    ∀ p ∈ s, (p.1 == k) = false := by
  intro p hp
  unfold storeGet at h
  cases hf : List.find? (fun q => q.1 == k) s with
  | some q => rw [hf] at h; cases h
  | none => simpa using List.find?_eq_none.mp hf p hp

/-- A key that `storeGet` finds occurs in some element. -/
theorem storeGet_some_hasKey (s : FragStore) (k : Int) (e : FragEntry)
    (h : storeGet s k = some e) : List.any s (fun p => p.1 == k) = true := by
  unfold storeGet at h
  cases hf : List.find? (fun q => q.1 == k) s with
  | none => rw [hf] at h; cases h
  | some q =>
    refine List.any_eq_true.mpr ⟨q, List.mem_of_find?_eq_some hf, ?_⟩
    simpa using List.find?_some hf

/-- Re-inserting the entry `storeGet` already finds leaves a duplicate-free
store unchanged. -/
theorem storeInsert_found_eq (s : FragStore) (k : Int) (e : FragEntry)
    (hwf : s.Pairwise (fun a b => a.1 ≠ b.1)) (hg : storeGet s k = some e) :
    storeInsert s k e = s := by
  induction s with
  | nil => simp [storeGet] at hg
  | cons a tl ih =>
    rcases List.pairwise_cons.mp hwf with ⟨hka, hwf'⟩
    by_cases c : (a.1 == k) = true
    · have hfind : List.find? (fun q => q.1 == k) (a :: tl) = some a :=
        List.find?_cons_of_pos _ c
      have hae : a.2 = e := by
        unfold storeGet at hg
        rw [hfind] at hg
        exact Option.some_injective _ hg
      have hk : a.1 = k := by simpa using c
      have htl : ∀ p ∈ tl, (p.1 == k) = false := by
        intro p hp
        have hne := hka p hp
        rw [Bool.eq_false_iff]
        intro hh
        have hpk : p.1 = k := by simpa using hh
        exact hne (by rw [hk, hpk])
      unfold storeInsert
      have hany : List.any (a :: tl) (fun p => p.1 == k) = true := by simp [c]
      rw [if_pos hany]
      simp only [List.map_cons, c, if_true]
      rw [mapReplace_eq_self tl k e htl, ← hk, ← hae]
    · have hfind : List.find? (fun q => q.1 == k) (a :: tl) = List.find? (fun q => q.1 == k) tl :=
        List.find?_cons_of_neg _ c
      have hgtl : storeGet tl k = some e := by
        unfold storeGet at hg ⊢
        rw [hfind] at hg
        exact hg
      have hins := ih hwf' hgtl
      have hany : List.any tl (fun p => p.1 == k) = true := storeGet_some_hasKey tl k e hgtl
      unfold storeInsert at hins ⊢
      rw [if_pos hany] at hins
      have hanyc : List.any (a :: tl) (fun p => p.1 == k) = true := by simp [hany]
      rw [if_pos hanyc]
      simp only [List.map_cons, c, Bool.false_eq_true, if_false]
      rw [hins]

/-- Inserting at a key absent from the store and inserting there again is
the same as inserting once. -/
theorem storeInsert_twice_fresh (s : FragStore) (k : Int) (e : FragEntry)
    (hg : storeGet s k = none) :
    storeInsert (storeInsert s k e) k e = storeInsert s k e := by
  have hnone := storeGet_none_noKey s k hg
  have hany : List.any s (fun p => p.1 == k) = false := by
    rw [List.any_eq_false]
    intro p hp
    simp [hnone p hp]
  have h1 : storeInsert s k e = List.append s [(k, e)] := by
    unfold storeInsert
    rw [if_neg (by simp [hany])]
  rw [h1]
  unfold storeInsert
  rw [if_pos (by simp)]
  simp only [List.append_eq, List.map_append, mapReplace_eq_self s k e hnone]
  simp

/-- After an insertion, `storeGet` sees the inserted entry. -/
theorem storeGet_storeInsert_self (s : FragStore) (k : Int) (e : FragEntry) :
    storeGet (storeInsert s k e) k = some e := by
  induction s with
  | nil => simp [storeInsert, storeGet]
  | cons a tl ih =>
    by_cases c : (a.1 == k) = true
    · have hany : List.any (a :: tl) (fun p => p.1 == k) = true := by simp [c]
      unfold storeInsert
      rw [if_pos hany]
      simp only [List.map_cons, c, if_true]
      unfold storeGet
      rw [List.find?_cons_of_pos _ (by simp)]
    · cases ca : List.any tl (fun p => p.1 == k) with
      | true =>
        have hany : List.any (a :: tl) (fun p => p.1 == k) = true := by simp [ca]
        unfold storeInsert
        rw [if_pos hany]
        simp only [List.map_cons, c, Bool.false_eq_true, if_false]
        unfold storeGet
        have hfind : List.find? (fun p => p.1 == k)
            (a :: List.map (fun p => if p.1 == k then (k, e) else p) tl) =
            List.find? (fun p => p.1 == k)
              (List.map (fun p => if p.1 == k then (k, e) else p) tl) :=
          List.find?_cons_of_neg _ c
        rw [hfind]
        have hmap : storeInsert tl k e = List.map (fun p => if p.1 == k then (k, e) else p) tl := by
          unfold storeInsert
          rw [if_pos ca]
        rw [hmap] at ih
        unfold storeGet at ih
        exact ih
      | false =>
        have hany : List.any (a :: tl) (fun p => p.1 == k) = false := by simp [ca, c]
        unfold storeInsert
        rw [if_neg (by simp [hany])]
        have happ : List.append (a :: tl) [(k, e)] = a :: List.append tl [(k, e)] := rfl
        rw [happ]
        unfold storeGet
        have hfind : List.find? (fun p => p.1 == k) (a :: List.append tl [(k, e)]) =
            List.find? (fun p => p.1 == k) (List.append tl [(k, e)]) :=
          List.find?_cons_of_neg _ c
        rw [hfind]
        have htl : storeInsert tl k e = List.append tl [(k, e)] := by
          unfold storeInsert
          rw [if_neg (by simp [ca])]
        rw [htl] at ih
        unfold storeGet at ih
        exact ih

/-- Erasing a key removes it from the view of `storeGet`. -/
theorem storeGet_storeErase (s : FragStore) (k : Int) :
    storeGet (storeErase s k) k = none := by
  unfold storeGet storeErase
  cases hf : List.find? (fun q => q.1 == k) (List.filter (fun p => !(p.1 == k)) s) with
  | none => rfl
  | some q =>
    have hq : (q.1 == k) = true := by simpa using List.find?_some hf
    have hmem := List.mem_of_find?_eq_some hf
    have hfil : (!(q.1 == k)) = true := by simpa using List.of_mem_filter hmem
    rw [hq] at hfil
    cases hfil

/-- C3 (amended): part A — for a fragment whose declared offset plus length
exceeds the *declared* total length, provided the declared total is
positive, the store has no duplicate keys, and any existing entry for the
key is incomplete (all invariants the code maintains from an empty store),
the fragment is dropped: no dispatch happens and the store is unchanged
beyond the initial entry creation.  Part B — an entry's total length
recorded at creation is never overwritten: any entry left under the same
key after any fragment call keeps the original total length. -/
theorem handleSendFragment_drop_preserves (store : FragStore) (now : Nat) (data : List Nat)
    (length seq : Int) :
    ((20 : Int) ≤ length → length = (data.length : Int) →
      0 < toInt32 (beU32At data 12) →
      toInt32 (beU32At data 12) < ((beU32At data 16 : Nat) : Int) + (length - 20) →
      store.Pairwise (fun a b => a.1 ≠ b.1) →
      (∀ e, storeGet store (toInt32 (beU32At data 0)) = some e →
        e.bytesWritten < e.totalLength) →
      handleSendFragment store now data length seq =
        some ((match storeGet store (toInt32 (beU32At data 0)) with
          | some _ => store
          | none => storeInsert store (toInt32 (beU32At data 0))
              ⟨toInt32 (beU32At data 12),
                List.replicate (toInt32 (beU32At data 12)).toNat 0, 0, now⟩), [])) ∧
    (∀ (s' : FragStore) (ds : List Dispatch) (e e' : FragEntry),
      storeGet store (toInt32 (beU32At data 0)) = some e →
      handleSendFragment store now data length seq = some (s', ds) →
      storeGet s' (toInt32 (beU32At data 0)) = some e' →
      e'.totalLength = e.totalLength) := by
  constructor
  · intro h20 hlen hpos hdrop hwf hincomplete
    unfold handleSendFragment
    rw [if_neg (by omega), if_neg (by omega), if_neg (by omega)]
    have hnodrop : ¬ (0 ≤ ((beU32At data 16 : Nat) : Int) ∧
        ((beU32At data 16 : Nat) : Int) + (length - 20) ≤ toInt32 (beU32At data 12)) := by
      rintro ⟨-, hB⟩
      omega
    cases hlook : storeGet store (toInt32 (beU32At data 0)) with
    | some e =>
      have hcomp : ¬ e.totalLength ≤ e.bytesWritten := by
        have := hincomplete e hlook
        omega
      dsimp only
      rw [if_neg hnodrop]
      dsimp only
      rw [if_neg hcomp]
      rw [storeInsert_found_eq store _ e hwf hlook]
    | none =>
      dsimp only
      rw [if_neg (by omega : ¬ toInt32 (beU32At data 12) < 0)]
      have hcomp : ¬ toInt32 (beU32At data 12) ≤ (0 : Int) := by omega
      dsimp only
      rw [if_neg hnodrop]
      dsimp only
      rw [if_neg hcomp]
      rw [storeInsert_twice_fresh store _ _ hlook]
  · intro s' ds e e' hlook hres hget
    unfold handleSendFragment at hres
    dsimp only at hres
    rw [hlook] at hres
    repeat' (first | dsimp only at hres | split at hres)
    all_goals cases hres
    all_goals first
      | (rw [storeGet_storeErase] at hget; cases hget)
      | (rw [storeGet_storeInsert_self] at hget; cases hget; all_goals rfl)
      | (rw [hlook] at hget; cases hget; all_goals rfl)
      | (rename_i step frag1 heq hcomp
         rw [storeGet_storeInsert_self] at hget
         cases hget
         repeat' split at heq
         all_goals cases heq
         all_goals rfl)

/-- C3 (witness): the amended theorem's part A at a concrete first
fragment — start sequence 7, declared total 5, fragment offset 9, one body
byte, so the fragment overflows the declared total and is dropped while the
freshly created (empty) entry stays. -/
theorem handleSendFragment_drop_preserves_witness :
    handleSendFragment [] 3
      [0, 0, 0, 7, 0, 0, 0, 1, 0, 0, 0, 0, 0, 0, 0, 5, 0, 0, 0, 9, 1] 21 0 =
      some ([((7 : Int), ⟨5, List.replicate 5 0, 0, 3⟩)], []) := by
  have h := (handleSendFragment_drop_preserves [] 3
    [0, 0, 0, 7, 0, 0, 0, 1, 0, 0, 0, 0, 0, 0, 0, 5, 0, 0, 0, 9, 1] 21 0).1
    (by decide) (by decide) (by decide) (by decide) (by simp)
    (fun e he => by cases he)
  simpa [storeGet, storeInsert] using h

/-- Big-endian 4-byte encoding of a `u32` value. -/
def enc32 (v : Nat) : List Nat :=
  [v / 2 ^ 24 % 256, v / 2 ^ 16 % 256, v / 2 ^ 8 % 256, v % 256]

/-- The wire bytes of one dictionary entry with a byte key and an i32
value: the key byte then the big-endian value. -/
def dictEntryBytes (e : Nat × Nat) : List Nat := e.1 :: enc32 e.2

/-- The wire bytes of a byte-keyed, i32-valued dictionary declared with `n`
entries but truncated right after the encoded `entries`. -/
def dictBytes (n : Nat) (entries : List (Nat × Nat)) : List Nat :=
  TypeByte :: TypeInteger :: n / 256 :: n % 256 :: (entries.map dictEntryBytes).join

/-- Reading an appended list at an offset past the prefix. -/
theorem getD_append_at (pre l : List Nat) (i : Nat) :
    (pre ++ l).getD (pre.length + i) 0 = l.getD i 0 := by
  rw [List.getD_append_right _ _ _ _ (by omega)]
  congr 1
  omega

/-- The 4-byte big-endian encoding decodes to the original value. -/
theorem beU32_enc32 (v : Nat) (hv : v < 2 ^ 32) :
    beU32 (v / 2 ^ 24 % 256) (v / 2 ^ 16 % 256) (v / 2 ^ 8 % 256) (v % 256) = v := by
  unfold beU32
  omega

/-- `readValue` at a byte tag: one byte, cursor + 1. -/
theorem readValueGo_byte (g : Nat) (data : List Nat) (off : Nat) (h : off < data.length) :
    readValueGo (g + 1) data off TypeByte = (.vbyte (data.getD off 0), off + 1) := by
  simp only [readValueGo]
  rw [if_neg (by omega), if_neg (by decide), if_pos trivial]

/-- `readValue` at an i32 tag: four big-endian bytes, cursor + 4. -/
theorem readValueGo_int (g : Nat) (data : List Nat) (off : Nat) (h : off + 4 ≤ data.length) :
    readValueGo (g + 1) data off TypeInteger = (.vint (toInt32 (beU32At data off)), off + 4) := by
  simp only [readValueGo]
  rw [if_neg (by omega), if_neg (by decide), if_neg (by decide), if_neg (by decide),
    if_neg (by decide), if_pos trivial, if_neg (by omega)]

/-- The dictionary entry loop over byte-key/i32-value wire entries decodes
exactly the encoded entries, folding them into the accumulated map by Go
map insertion, and stops at the end of the input. -/
theorem dictLoop_decodes (g : Nat) :
    ∀ (entries : List (Nat × Nat)) (count : Nat) (pre : List Nat)
      (dict : List (P16Value × P16Value)) (data : List Nat),
      data = pre ++ (entries.map dictEntryBytes).join →
      (∀ e ∈ entries, e.2 < 2 ^ 32) →
      entries.length ≤ count →
      dictLoopGo (readValueGo (g + 1) data) count data pre.length TypeByte TypeInteger dict =
        (List.foldl (fun d e => mapInsert d (.vbyte e.1) (.vint (toInt32 e.2))) dict entries,
          data.length) := by
  intro entries
  induction entries with
  | nil =>
    intro count pre dict data hdata hb hc
    subst hdata
    cases count with
    | zero => simp [dictLoopGo]
    | succ c => simp [dictLoopGo]
  | cons e rest ih =>
    intro count pre dict data hdata hb hc
    cases count with
    | zero => exact absurd hc (by simp)
    | succ c =>
      have hlen5 : (dictEntryBytes e).length = 5 := rfl
      have hdata' : data = (pre ++ dictEntryBytes e) ++ (rest.map dictEntryBytes).join := by
        rw [hdata]
        simp [dictEntryBytes]
      have hdlen : pre.length + 5 + ((rest.map dictEntryBytes).join).length = data.length := by
        rw [hdata']
        simp [dictEntryBytes, enc32]
        omega
      have hoff : pre.length < data.length := by omega
      have hkey : data.getD pre.length 0 = e.1 := by
        rw [hdata, show pre.length = pre.length + 0 by omega, getD_append_at]
        rfl
      have hval : beU32At data (pre.length + 1) = e.2 := by
        have h0 : data.getD (pre.length + 1) 0 = e.2 / 2 ^ 24 % 256 := by
          rw [hdata, getD_append_at]; rfl
        have h1 : data.getD (pre.length + 1 + 1) 0 = e.2 / 2 ^ 16 % 256 := by
          rw [hdata, show pre.length + 1 + 1 = pre.length + 2 by omega, getD_append_at]; rfl
        have h2 : data.getD (pre.length + 1 + 2) 0 = e.2 / 2 ^ 8 % 256 := by
          rw [hdata, show pre.length + 1 + 2 = pre.length + 3 by omega, getD_append_at]; rfl
        have h3 : data.getD (pre.length + 1 + 3) 0 = e.2 % 256 := by
          rw [hdata, show pre.length + 1 + 3 = pre.length + 4 by omega, getD_append_at]; rfl
        rw [beU32At, h0, h1, h2, h3]
        exact beU32_enc32 e.2 (hb e (by simp))
      simp only [dictLoopGo]
      rw [if_neg (by omega)]
      have hknot : ¬ (TypeByte = 0 ∨ TypeByte = TypeUnknown) := by decide
      have hvnot : ¬ (TypeInteger = 0 ∨ TypeInteger = TypeUnknown) := by decide
      rw [if_neg hknot]
      dsimp only
      rw [readValueGo_byte g data pre.length hoff]
      dsimp only
      rw [if_neg hvnot]
      dsimp only
      rw [readValueGo_int g data (pre.length + 1) (by omega)]
      dsimp only
      rw [hkey, hval]
      have := ih c (pre ++ dictEntryBytes e) (mapInsert dict (.vbyte e.1) (.vint (toInt32 e.2)))
        data hdata' (fun x hx => hb x (by simp [hx])) (by simpa using hc)
      rw [show pre.length + 1 + 4 = (pre ++ dictEntryBytes e).length by simp [dictEntryBytes, enc32]]
      rw [this]
      rfl

/-- Folding Go map insertions of entries with pairwise-distinct byte keys,
none already present, appends them in order. -/
theorem foldl_mapInsert_append :
    ∀ (entries : List (Nat × Nat)) (acc : List (P16Value × P16Value)),
      (∀ e ∈ entries, List.any acc (fun p => pvEq p.1 (.vbyte e.1)) = false) →
      (entries.map Prod.fst).Pairwise (fun a b => a ≠ b) →
      List.foldl (fun d e => mapInsert d (.vbyte e.1) (.vint (toInt32 e.2))) acc entries =
        acc ++ entries.map (fun e => (.vbyte e.1, .vint (toInt32 e.2))) := by
  intro entries
  induction entries with
  | nil => intro acc _ _; simp
  | cons e rest ih =>
    intro acc hnot hdist
    have hhead : List.any acc (fun p => pvEq p.1 (.vbyte e.1)) = false := hnot e (by simp)
    have hins : mapInsert acc (.vbyte e.1) (.vint (toInt32 e.2)) =
        acc ++ [(.vbyte e.1, .vint (toInt32 e.2))] := by
      unfold mapInsert
      rw [if_neg (by simp [hhead])]
    have hdist2 : List.Pairwise (fun a b => a ≠ b) (e.1 :: rest.map Prod.fst) := by
      simpa using hdist
    rcases List.pairwise_cons.mp hdist2 with ⟨hne, hdist'⟩
    have hnot2 : ∀ x ∈ rest,
        (List.any (acc ++ [((P16Value.vbyte e.1 : P16Value), (P16Value.vint (toInt32 e.2) : P16Value))])
          (fun p => pvEq p.1 (.vbyte x.1))) = false := by
      intro x hx
      rw [List.any_append, Bool.or_eq_false_iff]
      constructor
      · exact hnot x (by simp [hx])
      · have hnex : e.1 ≠ x.1 := hne x.1 (List.mem_map_of_mem _ hx)
        simp only [List.any_cons, List.any_nil, Bool.or_false]
        show (e.1 == x.1) = false
        simpa using hnex
    show List.foldl _ (mapInsert acc (.vbyte e.1) (.vint (toInt32 e.2))) rest = _
    rw [hins]
    rw [ih (acc ++ [((P16Value.vbyte e.1 : P16Value), (P16Value.vint (toInt32 e.2) : P16Value))])
      hnot2 hdist']
    simp

/-- C6 (amended): a byte-keyed, i32-valued dictionary declared with `n`
entries but truncated right after `entries.length < n` complete entries
decodes to the map holding exactly the decoded entries, consuming the whole
input; with pairwise-distinct keys its size is exactly the number of
entries present (the counterexample shows duplicate keys collapsing). -/
theorem dict_truncated_distinct_size (g n : Nat) (entries : List (Nat × Nat))
    (hn : n < 65536) (hK : entries.length < n)
    (hbytes : ∀ e ∈ entries, e.1 < 256 ∧ e.2 < 2 ^ 32)
    (hdist : (entries.map Prod.fst).Pairwise (fun a b => a ≠ b)) :
    readValueGo (g + 2) (dictBytes n entries) 0 TypeDictionary =
      (.vdict (entries.map (fun e => (.vbyte e.1, .vint (toInt32 e.2)))),
        (dictBytes n entries).length) ∧
    (entries.map (fun e =>
      ((P16Value.vbyte e.1, P16Value.vint (toInt32 e.2)) : P16Value × P16Value))).length =
      entries.length := by
  refine ⟨?_, by simp⟩
  have hlen : 4 ≤ (dictBytes n entries).length := by simp [dictBytes]
  conv_lhs => rw [readValueGo]
  rw [if_neg (by omega), if_neg (by decide), if_neg (by decide), if_neg (by decide),
    if_neg (by decide), if_neg (by decide), if_neg (by decide), if_neg (by decide),
    if_neg (by decide), if_neg (by decide), if_neg (by decide), if_neg (by decide),
    if_neg (by decide), if_neg (by decide), if_pos (by decide), if_neg (by omega)]
  dsimp only
  have hk : (dictBytes n entries).getD 0 0 = TypeByte := rfl
  have hv : (dictBytes n entries).getD (0 + 1) 0 = TypeInteger := rfl
  have hlen16 : beU16At (dictBytes n entries) (0 + 2) = n := by
    show beU16 ((dictBytes n entries).getD 2 0) ((dictBytes n entries).getD 3 0) = n
    have h2 : (dictBytes n entries).getD 2 0 = n / 256 := rfl
    have h3 : (dictBytes n entries).getD 3 0 = n % 256 := rfl
    rw [h2, h3]
    unfold beU16
    omega
  rw [hk, hv, hlen16]
  have hloop := dictLoop_decodes g entries n [TypeByte, TypeInteger, n / 256, n % 256] []
    (dictBytes n entries) (by simp [dictBytes]) (fun e he => (hbytes e he).2) (by omega)
  have hpre4 : ([TypeByte, TypeInteger, n / 256, n % 256] : List Nat).length = 0 + 4 := rfl
  rw [hpre4] at hloop
  rw [hloop]
  rw [foldl_mapInsert_append entries [] (by simp) hdist]
  simp

/-- C6 (counterexample): the claim says a dictionary declared with length N
truncated at entry K < N yields a map with exactly K entries.  A dictionary
declared with 3 entries and truncated after 2 entries that share the byte
key 5 yields a map with 1 entry (Go map insertion overwrites), not 2. -/
theorem dict_duplicate_keys_collapse :
    readValueGo 5 [98, 105, 0, 3, 5, 0, 0, 0, 100, 5, 0, 0, 0, 200] 0 TypeDictionary =
      (.vdict [(.vbyte 5, .vint 200)], 14) ∧ (1 : Nat) ≠ 2 :=
  ⟨rfl, by decide⟩

/-- C6 (witness): the amended theorem at a 2-entry truncation of a 3-entry
dictionary with distinct keys 1 and 2. -/
theorem dict_truncated_distinct_size_witness :
    readValueGo 2 (dictBytes 3 [(1, 100), (2, 200)]) 0 TypeDictionary =
      (.vdict [(.vbyte 1, .vint 100), (.vbyte 2, .vint 200)],
        (dictBytes 3 [(1, 100), (2, 200)]).length) :=
  ((dict_truncated_distinct_size 0 3 [(1, 100), (2, 200)] (by decide) (by decide)
    (by decide) (by decide)).1)

/-- The four `Stats` fields the spec's step 1 sets once per packet. -/
def statsCore (s : Stats) : Nat × Nat × Nat × Nat :=
  (s.packetsReceived, s.bytesReceived, s.packetsMalformed, s.lastPacketTime)

/-- The decoded-message counters never touch the step-1 fields. -/
theorem bumpDecoded_core (s : Stats) (d : Dispatch) :
    statsCore (bumpDecoded s d) = statsCore s := by
  cases d <;> rfl

/-- Folding the decoded-message bumps never touches the step-1 fields. -/
theorem bumpDecodedAll_core (ds : List Dispatch) :
    ∀ s : Stats, statsCore (bumpDecodedAll s ds) = statsCore s := by
  induction ds with
  | nil => intro s; rfl
  | cons d tl ih =>
    intro s
    show statsCore (bumpDecodedAll (bumpDecoded s d) tl) = statsCore s
    rw [ih, bumpDecoded_core]

/-- The spec-modelled command loop never touches the step-1 fields. -/
theorem specCmdLoop_core (now : Nat) (payload : List Nat) :
    ∀ (count offset : Nat) (s : Stats) (store : FragStore) (acc : List Dispatch),
      statsCore (specCmdLoop now payload count offset s store acc).1 = statsCore s := by
  intro count
  induction count with
  | zero => intro offset s store acc; rfl
  | succ n ih =>
    intro offset s store acc
    simp only [specCmdLoop]
    repeat' split
    all_goals first
      | rfl
      | (rw [ih, bumpDecodedAll_core]; try rfl)
      | (rw [ih])

/-- C2: every call of the stats-updating `ParsePacket` advances the
packets-received counter by exactly 1, the bytes-received counter by the
payload length, and stamps the last-packet time; a payload shorter than 12
bytes additionally advances the malformed counter by 1 and dispatches no
message. -/
theorem parsePacketStats_counters (stats : Stats) (store : FragStore) (now : Nat)
    (payload : List Nat) :
    (ParsePacketStats stats store now payload).1.packetsReceived = stats.packetsReceived + 1 ∧
    (ParsePacketStats stats store now payload).1.bytesReceived =
      stats.bytesReceived + payload.length ∧
    (ParsePacketStats stats store now payload).1.lastPacketTime = now ∧
    (payload.length < 12 →
      (ParsePacketStats stats store now payload).1.packetsMalformed =
        stats.packetsMalformed + 1 ∧
      (ParsePacketStats stats store now payload).2.2.1 = []) := by
  unfold ParsePacketStats
  dsimp only
  by_cases hshort : payload.length < 12
  · rw [if_pos hshort]
    exact ⟨rfl, rfl, rfl, fun _ => ⟨rfl, rfl⟩⟩
  · rw [if_neg hshort]
    by_cases henc : payload.getD 2 0 = 1
    · rw [if_pos henc]
      exact ⟨rfl, rfl, rfl, fun hh => absurd hh hshort⟩
    · rw [if_neg henc]
      by_cases hcrc : payload.getD 2 0 = 204
      · simp only [hcrc, eq_self_iff_true, ite_true]
        have hcore := specCmdLoop_core now payload (payload.getD 3 0) 16
          { stats with
            bytesReceived := stats.bytesReceived + payload.length,
            packetsReceived := stats.packetsReceived + 1,
            lastPacketTime := now,
            packetsWithCRC := stats.packetsWithCRC + 1 } store []
        simp only [statsCore, Prod.mk.injEq] at hcore
        split <;>
          exact ⟨hcore.1, hcore.2.1, hcore.2.2.2, fun hh => absurd hh hshort⟩
      · simp only [if_neg hcrc]
        have hcore := specCmdLoop_core now payload (payload.getD 3 0) 12
          { stats with
            bytesReceived := stats.bytesReceived + payload.length,
            packetsReceived := stats.packetsReceived + 1,
            lastPacketTime := now } store []
        simp only [statsCore, Prod.mk.injEq] at hcore
        split <;>
          exact ⟨hcore.1, hcore.2.1, hcore.2.2.2, fun hh => absurd hh hshort⟩

/-- C2 (witness): the theorem at a 1-byte payload — the counters advance
and the malformed branch fires with no dispatch. -/
theorem parsePacketStats_counters_witness :
    (ParsePacketStats (newStats 0) [] 5 [0]).1.packetsMalformed =
      (newStats 0).packetsMalformed + 1 ∧
    (ParsePacketStats (newStats 0) [] 5 [0]).2.2.1 = [] :=
  (parsePacketStats_counters (newStats 0) [] 5 [0]).2.2.2 (by decide)

/-- C3 (counterexample): the claim says a fragment whose declared offset
plus length exceeds the total length is dropped and the store is unchanged
beyond the initial entry creation.  A first fragment declaring total length
0 with one body byte satisfies the overflow condition (0 + 1 > 0), so the
copy is skipped — but the freshly created entry (bytes-written 0 ≥ total 0)
is immediately treated as complete, delivered, and removed: after the call
the store holds no entry at all. -/
theorem fragment_zero_total_entry_not_kept :
    toInt32 (beU32At [0, 0, 0, 0, 0, 0, 0, 1, 0, 0, 0, 0, 0, 0, 0, 0, 0, 0, 0, 0, 9] 12) = 0 ∧
    toInt32 (beU32At [0, 0, 0, 0, 0, 0, 0, 1, 0, 0, 0, 0, 0, 0, 0, 0, 0, 0, 0, 0, 9] 16) +
      (21 - 20) > 0 ∧
    handleSendFragment [] 0 [0, 0, 0, 0, 0, 0, 0, 1, 0, 0, 0, 0, 0, 0, 0, 0, 0, 0, 0, 0, 9]
      21 0 = some ([], []) :=
  ⟨rfl, by decide, rfl⟩

end AlbionLens
